import Mathlib

/-!
Verification development for the viva-simulator turn-response protocol
(src/app.py).  The Python strings of the app are modelled as `List Char`;
decoded JSON string values are modelled as `List Nat` of Unicode code
points (Python strings admit lone surrogates that `Char` cannot carry).
All definitions are translated from src/app.py; the few definitions that
follow the specification's words instead are marked as such in their doc
comments.
-/

/-- Bounded-range test on naturals, used to spell out character classes. -/
def between (a b n : Nat) : Bool := Nat.ble a n && Nat.ble n b

/-- Character class of Python `str.isspace` / `str.strip`: the exact set of
code points CPython strips with no-argument `strip()`. -/
def pySpace (c : Char) : Bool :=
  let n := c.toNat
  between 9 13 n || between 28 31 n || n == 32 || n == 133 || n == 160 ||
  n == 5760 || between 8192 8202 n || n == 8232 || n == 8233 ||
  n == 8239 || n == 8287 || n == 12288

/-- Model of Python `str.strip()`: drop `pySpace` characters from both ends. -/
def pyStrip (l : List Char) : List Char :=
  ((l.dropWhile pySpace).reverse.dropWhile pySpace).reverse

/-- Model of Python `s.startswith("\x7b")` on a character list. -/
def startsBrace (l : List Char) : Bool :=
  match l with
  | '{' :: _ => true
  | _ => false

/-- Model of Python `s.split("\x7d", 1)`: `some (before, after)` when a
closing brace occurs, `none` when it does not (in which case the Python
two-variable unpacking raises `ValueError`). -/
def splitBrace : List Char → Option (List Char × List Char)
  | [] => none
  | c :: cs =>
    if c = '}' then some ([], cs)
    else (splitBrace cs).map (fun p => (c :: p.1, p.2))

/-- JSON whitespace skipped by Python's `json` scanner: space, tab, LF, CR. -/
def jWs (c : Char) : Bool :=
  let n := c.toNat
  n == 32 || n == 9 || n == 10 || n == 13

/-- Drop leading JSON whitespace. -/
def skipWs : List Char → List Char
  | [] => []
  | c :: cs => if jWs c then skipWs cs else c :: cs

/-- ASCII decimal digit test. -/
def isDigitC (c : Char) : Bool := between 48 57 c.toNat

/-- Value of a decimal digit character. -/
def digitVal (c : Char) : Nat := c.toNat - 48

/-- Big-endian accumulation of decimal digit characters into a natural. -/
def digitsToNat (acc : Nat) : List Char → Nat
  | [] => acc
  | c :: cs => digitsToNat (acc * 10 + digitVal c) cs

/-- JSON values as produced by Python `json.loads`.  Integer literals are
`num`; literals with a fractional part or exponent (and the non-finite
constants) are kept as their raw text in `fnum` since the app never
computes with them; object keys and string values are code-point lists. -/
inductive Json where
  | null
  | bool (b : Bool)
  | num (n : Int)
  | fnum (raw : List Char)
  | str (s : List Nat)
  | arr (elems : List Json)
  | obj (fields : List (List Nat × Json))

/-- Single-character JSON escapes accepted by Python's `json` scanner. -/
def escMap (c : Char) : Option Nat :=
  if c = '"' then some 34
  else if c = '\\' then some 92
  else if c = '/' then some 47
  else if c = 'b' then some 8
  else if c = 'f' then some 12
  else if c = 'n' then some 10
  else if c = 'r' then some 13
  else if c = 't' then some 9
  else none

/-- Hexadecimal digit value. -/
def hexVal (c : Char) : Option Nat :=
  let n := c.toNat
  if between 48 57 n then some (n - 48)
  else if between 97 102 n then some (n - 87)
  else if between 65 70 n then some (n - 55)
  else none

/-- Four hexadecimal digits of a `\uXXXX` escape. -/
def hex4 (a b c d : Char) : Option Nat :=
  match hexVal a, hexVal b, hexVal c, hexVal d with
  | some x, some y, some z, some w => some (((x * 16 + y) * 16 + z) * 16 + w)
  | _, _, _, _ => none

/-- Model of Python `json` `scanstring` (strict mode) after the opening
quote, before surrogate pairing: literal characters below 0x20 are
rejected and escapes are decoded one at a time. -/
def parseStrAux : List Char → Option (List Nat × List Char)
  | [] => none
  | c :: rest =>
    if c = '"' then some ([], rest)
    else if c = '\\' then
      match rest with
      | [] => none
      | e :: rest2 =>
        if e = 'u' then
          match rest2 with
          | a :: b :: c2 :: d :: rest3 =>
            match hex4 a b c2 d with
            | none => none
            | some u => (parseStrAux rest3).map (fun p => (u :: p.1, p.2))
          | _ => none
        else
          match escMap e with
          | none => none
          | some n => (parseStrAux rest2).map (fun p => (n :: p.1, p.2))
    else if c.toNat < 32 then none
    else (parseStrAux rest).map (fun p => (c.toNat :: p.1, p.2))

/-- Combine each high surrogate immediately followed by a low surrogate
into one code point.  CPython's `scanstring` does this while scanning two
adjacent `\uXXXX` escapes; since a literal character can never be a
surrogate, pairing the decoded units afterwards is equivalent. -/
def combineSurrogates : List Nat → List Nat
  | [] => []
  | [u] => [u]
  | u :: u2 :: rest =>
    if (55296 ≤ u ∧ u ≤ 56319) ∧ (56320 ≤ u2 ∧ u2 ≤ 57343) then
      (65536 + (u - 55296) * 1024 + (u2 - 56320)) :: combineSurrogates rest
    else u :: combineSurrogates (u2 :: rest)

/-- Model of `scanstring`: decode the escapes, then pair surrogates. -/
def parseJStr (l : List Char) : Option (List Nat × List Char) :=
  (parseStrAux l).map (fun p => (combineSurrogates p.1, p.2))

/-- Optional fractional part of the JSON number grammar `(\.\d+)?`. -/
def parseFrac (l : List Char) : Option (List Char × List Char) :=
  match l with
  | [] => none
  | c :: r =>
    if c = '.' then
      match r.takeWhile isDigitC with
      | [] => none
      | ds => some ('.' :: ds, r.dropWhile isDigitC)
    else none

/-- Optional exponent part of the JSON number grammar. -/
def parseExp (l : List Char) : Option (List Char × List Char) :=
  match l with
  | e :: r =>
    if e = 'e' ∨ e = 'E' then
      let sr : List Char × List Char :=
        match r with
        | s :: r2 => if s = '+' ∨ s = '-' then ([s], r2) else ([], r)
        | [] => ([], r)
      match sr.2.takeWhile isDigitC with
      | [] => none
      | ds => some (e :: sr.1 ++ ds, sr.2.dropWhile isDigitC)
    else none
  | [] => none

/-- Continue a number once its integer digits are known: a plain integer
when neither fraction nor exponent follows, otherwise the raw float text. -/
def afterInt (neg : Bool) (ds : List Char) (rest : List Char) : Json × List Char :=
  match parseFrac rest with
  | some fp =>
    match parseExp fp.2 with
    | some ep =>
      (Json.fnum ((if neg then ['-'] else []) ++ ds ++ fp.1 ++ ep.1), ep.2)
    | none => (Json.fnum ((if neg then ['-'] else []) ++ ds ++ fp.1), fp.2)
  | none =>
    match parseExp rest with
    | some ep => (Json.fnum ((if neg then ['-'] else []) ++ ds ++ ep.1), ep.2)
    | none =>
      (Json.num (if neg then -(digitsToNat 0 ds : Int) else (digitsToNat 0 ds : Int)), rest)

/-- Unsigned integer part `0|[1-9]\d*` of the JSON number regex, then the
optional parts. -/
def parseUIntPart (neg : Bool) : List Char → Option (Json × List Char)
  | [] => none
  | c :: cs =>
    if c = '0' then some (afterInt neg ['0'] cs)
    else if isDigitC c then
      some (afterInt neg (c :: cs.takeWhile isDigitC) (cs.dropWhile isDigitC))
    else none

/-- Model of the Python `json` number regex
`(-?(?:0|[1-9]\d*))(\.\d+)?([eE][-+]?\d+)?` matched at the current
position; `none` when the regex does not match at all. -/
def parseNumber : List Char → Option (Json × List Char)
  | [] => none
  | c :: cs => if c = '-' then parseUIntPart true cs else parseUIntPart false (c :: cs)

/-- Strip a literal character sequence, as Python's scanner does for
`null`, `true`, `false` and the non-finite constants. -/
def stripPref : List Char → List Char → Option (List Char)
  | [], l => some l
  | p :: ps, c :: cs => if c = p then stripPref ps cs else none
  | _ :: _, [] => none

mutual

/-- Model of Python `json` `_scan_once`: one JSON value at the current
position (no leading whitespace).  Fuel only bounds container nesting;
`jsonLoads` supplies fuel exceeding any possible nesting depth. -/
def parseValue : Nat → List Char → Option (Json × List Char)
  | 0, _ => none
  | fuel + 1, l =>
    match l with
    | [] => none
    | c :: cs =>
      if c = '"' then (parseJStr cs).map (fun p => (Json.str p.1, p.2))
      else if c = '{' then
        match skipWs cs with
        | '}' :: r => some (Json.obj [], r)
        | l1 => parseMembers fuel l1 []
      else if c = '[' then
        match skipWs cs with
        | ']' :: r => some (Json.arr [], r)
        | l1 => parseElems fuel l1 []
      else if isDigitC c || c = '-' then
        match parseNumber l with
        | some p => some p
        | none =>
          match stripPref ("-Infinity".toList) l with
          | some r => some (Json.fnum ("-Infinity".toList), r)
          | none => none
      else
        match stripPref ("null".toList) l with
        | some r => some (Json.null, r)
        | none =>
          match stripPref ("true".toList) l with
          | some r => some (Json.bool true, r)
          | none =>
            match stripPref ("false".toList) l with
            | some r => some (Json.bool false, r)
            | none =>
              match stripPref ("NaN".toList) l with
              | some r => some (Json.fnum ("NaN".toList), r)
              | none =>
                match stripPref ("Infinity".toList) l with
                | some r => some (Json.fnum ("Infinity".toList), r)
                | none => none

/-- Members of a JSON object, positioned at a property name (whitespace
already skipped); duplicate keys are resolved by `jget` (last wins, as in
a Python dict). -/
def parseMembers : Nat → List Char → List (List Nat × Json) →
    Option (Json × List Char)
  | 0, _, _ => none
  | fuel + 1, l, acc =>
    match l with
    | '"' :: cs =>
      match parseJStr cs with
      | none => none
      | some kv =>
        match skipWs kv.2 with
        | ':' :: r2 =>
          match parseValue fuel (skipWs r2) with
          | none => none
          | some vr =>
            match skipWs vr.2 with
            | '}' :: r4 => some (Json.obj (acc ++ [(kv.1, vr.1)]), r4)
            | ',' :: r4 => parseMembers fuel (skipWs r4) (acc ++ [(kv.1, vr.1)])
            | _ => none
        | _ => none
    | _ => none

/-- Elements of a JSON array, positioned at a value. -/
def parseElems : Nat → List Char → List Json → Option (Json × List Char)
  | 0, _, _ => none
  | fuel + 1, l, acc =>
    match parseValue fuel l with
    | none => none
    | some vr =>
      match skipWs vr.2 with
      | ']' :: r => some (Json.arr (acc ++ [vr.1]), r)
      | ',' :: r => parseElems fuel (skipWs r) (acc ++ [vr.1])
      | _ => none

end

/-- Model of Python `json.loads` on a character list: skip whitespace,
scan one value, require only whitespace to remain.  The fuel
`l.length + 1` exceeds any container nesting depth reachable in `l`, so
it never cuts a parse short. -/
def jsonLoads (l : List Char) : Option Json :=
  match parseValue (l.length + 1) (skipWs l) with
  | some vr => if skipWs vr.2 = [] then some vr.1 else none
  | none => none

/-- Model of Python `dict(pairs).get k`: the value of the last binding of
`k`, if any. -/
def jget (fields : List (List Nat × Json)) (k : List Nat) : Option Json :=
  fields.foldl (fun acc p => if p.1 = k then some p.2 else acc) none

/-- Code points of the `score` key. -/
def kScore : List Nat := ("score".toList).map Char.toNat

/-- Code points of the `precision_feedback` key. -/
def kFeedback : List Nat := ("precision_feedback".toList).map Char.toNat

/-- Role of a chat turn. -/
inductive Role where
  | user
  | assistant
deriving DecidableEq, Repr

/-- One entry of `st.session_state.chat_history`. -/
structure Turn where
  role : Role
  content : List Char
deriving DecidableEq, Repr

/-- The mutable session state the controller touches: `pdf_text`
(`None` until ingestion), `score` (initialised to the integer 0),
`precision_feedback` (absent until first set), and `chat_history`. -/
structure Session where
  pdf_text : Option (List Char)
  score : Json
  feedback : Option Json
  chat_history : List Turn

/-- A fresh session as `main` initialises it. -/
def emptySession : Session :=
  { pdf_text := none, score := Json.num 0, feedback := none, chat_history := [] }

/-- Per-turn body of the history loop in `generate_response`
(src/app.py lines 88-101): an assistant turn whose text contains both a
brace-open and a brace-close has its text replaced by the portion after
the first brace-close, stripped; every other turn passes through. -/
def sanitizeTurn (t : Turn) : Turn :=
  match t.role with
  | Role.user => t
  | Role.assistant =>
    if '{' ∈ t.content ∧ '}' ∈ t.content then
      match splitBrace t.content with
      | some p => { role := Role.assistant, content := pyStrip p.2 }
      | none => t
    else t

/-- The history sanitizer of `generate_response`: the loop applied to the
whole transcript, order preserved. -/
def sanitize (ts : List Turn) : List Turn := ts.map sanitizeTurn

/-- The submit-path reply handling of `main` (src/app.py lines 203-216):
if the stripped reply starts with a brace-open, split at the first
brace-close, `json.loads` the head plus a closing brace, and on success
store `score` (default 0) and `precision_feedback` (default empty) and
append the raw reply; every failure (no brace-close, decode error, or a
non-dict result) is caught and the raw reply is appended with the score
state untouched; a reply with no leading brace-open is appended as-is. -/
def replyUpdate (s : Session) (responseText : List Char) : Session :=
  if startsBrace (pyStrip responseText) then
    match splitBrace responseText with
    | some p =>
      match jsonLoads (p.1 ++ ['}']) with
      | some (Json.obj fields) =>
        { s with
          score := (jget fields kScore).getD (Json.num 0)
          feedback := some ((jget fields kFeedback).getD (Json.str []))
          chat_history := s.chat_history ++ [{ role := Role.assistant, content := responseText }] }
      | some _ =>
        { s with chat_history := s.chat_history ++ [{ role := Role.assistant, content := responseText }] }
      | none =>
        { s with chat_history := s.chat_history ++ [{ role := Role.assistant, content := responseText }] }
    | none =>
      { s with chat_history := s.chat_history ++ [{ role := Role.assistant, content := responseText }] }
  else
    { s with chat_history := s.chat_history ++ [{ role := Role.assistant, content := responseText }] }

/-- The first-prompt reply handling of `main` (src/app.py lines 178-188).
It differs from `replyUpdate` in exactly one branch: when the stripped
reply does not start with a brace-open, the `if` body is skipped, no
exception is raised, and nothing at all is appended — the reply is
dropped. -/
def firstReplyUpdate (s : Session) (responseText : List Char) : Session :=
  if startsBrace (pyStrip responseText) then
    match splitBrace responseText with
    | some p =>
      match jsonLoads (p.1 ++ ['}']) with
      | some (Json.obj fields) =>
        { s with
          score := (jget fields kScore).getD (Json.num 0)
          feedback := some ((jget fields kFeedback).getD (Json.str []))
          chat_history := s.chat_history ++ [{ role := Role.assistant, content := responseText }] }
      | some _ =>
        { s with chat_history := s.chat_history ++ [{ role := Role.assistant, content := responseText }] }
      | none =>
        { s with chat_history := s.chat_history ++ [{ role := Role.assistant, content := responseText }] }
    | none =>
      { s with chat_history := s.chat_history ++ [{ role := Role.assistant, content := responseText }] }
  else s

/-- The first-prompt step guarded by `if response_text:` (src/app.py
lines 173-188): a failed model call returns `None` and an empty reply is
falsy, and in both cases nothing happens. -/
def firstPromptStep (s : Session) (modelReply : Option (List Char)) : Session :=
  match modelReply with
  | none => s
  | some r => if r = [] then s else firstReplyUpdate s r

/-- The audio-submit step of `main` (src/app.py lines 193-218):
`user_text` is `None` on transcription failure and falsy when empty, and
in both cases the whole block is skipped; otherwise the user turn is
appended, the model is invoked, and a truthy reply is processed by the
parse block. -/
def submitStep (s : Session) (transcription : Option (List Char))
    (modelReply : Option (List Char)) : Session :=
  match transcription with
  | none => s
  | some u =>
    if u = [] then s
    else
      let s1 := { s with chat_history := s.chat_history ++ [{ role := Role.user, content := u }] }
      match modelReply with
      | none => s1
      | some r => if r = [] then s1 else replyUpdate s1 r

/-- The PDF-ingest guard of `main` (src/app.py lines 160-166):
`if uploaded_file and not st.session_state.pdf_text`.  Note that both
`None` and the empty string are falsy, so an empty extracted text does
not latch. -/
def ingestStep (s : Session) (uploaded : Option (List Char)) : Session :=
  match uploaded with
  | none => s
  | some text =>
    match s.pdf_text with
    | none => { s with pdf_text := some text }
    | some t => if t = [] then { s with pdf_text := some text } else s

/-- The display loop's rendering of one assistant turn (src/app.py lines
146-156): when the stripped content starts with a brace-open, everything
up to and including the first brace-close is dropped and the rest is
stripped; the split is attempted with no JSON validation, and only when
no brace-close exists does the raised `ValueError` fall back to showing
the full content. -/
def displayText (content : List Char) : List Char :=
  if startsBrace (pyStrip content) then
    match splitBrace content with
    | some p => pyStrip p.2
    | none => content
  else content

/-- Decimal digit character. -/
def digitChar (n : Nat) : Char := Char.ofNat (48 + n)

/-- Big-endian decimal digit characters of a positive natural. -/
def natDigits (n : Nat) : List Char := (Nat.digits 10 n).reverse.map digitChar

/-- Decimal representation of a natural as characters. -/
def natRepr (n : Nat) : List Char := if n = 0 then ['0'] else natDigits n

/-- Modelled from the spec (§4.3, §8): the body of the structured JSON
prefix built from a score and a feedback string, before its closing
brace. -/
def jpBody (sc : Nat) (f : List Char) : List Char :=
  ['{', '"', 's', 'c', 'o', 'r', 'e', '"', ':', ' '] ++ natRepr sc ++
    [',', ' ', '"', 'p', 'r', 'e', 'c', 'i', 's', 'i', 'o', 'n', '_',
     'f', 'e', 'e', 'd', 'b', 'a', 'c', 'k', '"', ':', ' ', '"'] ++ f ++ ['"']

/-- Modelled from the spec (§4.3, §8): `json_prefix(s, f)`, the structured
prefix an assistant reply is instructed to start with. -/
def jsonPrefixOf (sc : Nat) (f : List Char) : List Char := jpBody sc f ++ ['}']

/-- Modelled from the spec (§4.3 grammar): a text begins with a structured
prefix when it starts with a brace-open and its head up to the first
brace-close decodes as a JSON object. -/
def structuredStart (t : List Char) : Bool :=
  match t with
  | '{' :: _ =>
    match splitBrace t with
    | some p =>
      match jsonLoads (p.1 ++ ['}']) with
      | some (Json.obj _) => true
      | _ => false
    | none => false
  | _ => false

/-- A feedback character that survives the round trip: not a brace (so the
first brace-close split is not fooled), not a quote or backslash (so the
JSON string does not end or escape early), and not a control character
(which strict `json.loads` rejects). -/
def cleanFeedbackChar (c : Char) : Prop :=
  c ≠ '{' ∧ c ≠ '}' ∧ c ≠ '"' ∧ c ≠ '\\' ∧ 32 ≤ c.toNat

instance (c : Char) : Decidable (cleanFeedbackChar c) := by
  unfold cleanFeedbackChar
  infer_instance

/-- Failure of the head decode: either no brace-close exists, or the head
up to the first brace-close does not `json.loads`. -/
def headLoadFails (raw : List Char) : Bool :=
  match splitBrace raw with
  | none => true
  | some p => (jsonLoads (p.1 ++ ['}'])).isNone

/-- Tail of the structured prefix from the feedback value onwards. -/
def feedTail (f : List Char) : List Char := f ++ '"' :: '}' :: []

/-- Suffix of the structured prefix starting inside the feedback key. -/
def fbPart (f : List Char) : List Char :=
  'p' :: 'r' :: 'e' :: 'c' :: 'i' :: 's' :: 'i' :: 'o' :: 'n' :: '_' ::
  'f' :: 'e' :: 'e' :: 'd' :: 'b' :: 'a' :: 'c' :: 'k' :: '"' ::
  ':' :: ' ' :: '"' :: feedTail f

/-- Suffix of the structured prefix starting at the score value. -/
def numPart (sc : Nat) (f : List Char) : List Char :=
  natRepr sc ++ ',' :: ' ' :: '"' :: fbPart f

/-- Suffix of the structured prefix starting inside the score key. -/
def scorePart (sc : Nat) (f : List Char) : List Char :=
  's' :: 'c' :: 'o' :: 'r' :: 'e' :: '"' :: ':' :: ' ' :: numPart sc f

/-- Portion of a text after its first brace-close; the whole text when no
brace-close exists. -/
def tailAfterBrace (l : List Char) : List Char :=
  match splitBrace l with
  | some p => p.2
  | none => l

/-! ### Basic lemmas about the string utilities -/

theorem ne_of_toNat_ne {c d : Char} (h : c.toNat ≠ d.toNat) : c ≠ d :=
  fun e => h (by rw [e])

theorem splitBrace_eq_some : ∀ {l a b : List Char}, splitBrace l = some (a, b) →
    l = a ++ '}' :: b ∧ '}' ∉ a
  | [], a, b, h => by simp [splitBrace] at h
  | c :: cs, a, b, h => by
    by_cases hc : c = '}'
    · subst hc
      simp only [splitBrace, if_pos rfl] at h
      injection h with h
      injection h with h1 h2
      subst h1; subst h2
      exact ⟨rfl, by simp⟩
    · simp only [splitBrace, if_neg hc] at h
      rcases hsp : splitBrace cs with _ | p
      · rw [hsp] at h; simp at h
      · rw [hsp] at h
        cases p with
        | mk p1 p2 =>
          simp only [Option.map_some'] at h
          injection h with h
          injection h with h1 h2
          subst h1; subst h2
          obtain ⟨e1, e2⟩ := splitBrace_eq_some hsp
          refine ⟨by simp [e1], ?_⟩
          intro hm
          rcases List.mem_cons.mp hm with hm | hm
          · exact hc hm.symm
          · exact e2 hm

theorem splitBrace_append {a : List Char} (b : List Char) (ha : '}' ∉ a) :
    splitBrace (a ++ '}' :: b) = some (a, b) := by
  induction a with
  | nil => simp [splitBrace]
  | cons c cs ih =>
    have hc : c ≠ '}' := fun h => ha (by simp [h])
    simp [splitBrace, hc, ih (fun h => ha (by simp [h]))]

theorem splitBrace_isSome_of_mem {l : List Char} (h : '}' ∈ l) :
    ∃ p, splitBrace l = some p := by
  induction l with
  | nil => simp at h
  | cons c cs ih =>
    by_cases hc : c = '}'
    · exact ⟨([], cs), by simp [splitBrace, hc]⟩
    · have hm : '}' ∈ cs := by
        rcases List.mem_cons.mp h with h | h
        · exact absurd h.symm hc
        · exact h
      obtain ⟨p, hp⟩ := ih hm
      exact ⟨(c :: p.1, p.2), by simp [splitBrace, hc, hp]⟩

theorem splitBrace_none_of_not_mem {l : List Char} (h : '}' ∉ l) :
    splitBrace l = none := by
  induction l with
  | nil => rfl
  | cons c cs ih =>
    have hc : c ≠ '}' := fun e => h (by simp [e])
    simp [splitBrace, hc, ih (fun e => h (by simp [e]))]

theorem mem_of_mem_pyStrip {c : Char} {l : List Char} (h : c ∈ pyStrip l) : c ∈ l := by
  unfold pyStrip at h
  rw [List.mem_reverse] at h
  have h1 := (List.dropWhile_sublist (l := (l.dropWhile pySpace).reverse) pySpace).mem h
  rw [List.mem_reverse] at h1
  exact (List.dropWhile_sublist pySpace).mem h1

theorem pyStrip_cons_shape (c : Char) (cs : List Char) (h : pySpace c = false) :
    ∃ t, pyStrip (c :: cs) = c :: t := by
  unfold pyStrip
  rw [List.dropWhile_cons_of_neg (by simp [h])]
  rw [List.reverse_cons]
  rcases he : (cs.reverse).dropWhile pySpace with _ | ⟨y, ys⟩
  · refine ⟨[], ?_⟩
    rw [List.dropWhile_append]
    simp [he, h]
  · refine ⟨(y :: ys).reverse, ?_⟩
    rw [List.dropWhile_append]
    simp [he]

theorem startsBrace_pyStrip_cons (cs : List Char) :
    startsBrace (pyStrip ('{' :: cs)) = true := by
  obtain ⟨t, ht⟩ := pyStrip_cons_shape '{' cs (by decide)
  rw [ht]; rfl

theorem skipWs_cons_of_not_ws {c : Char} (cs : List Char) (h : jWs c = false) :
    skipWs (c :: cs) = c :: cs := by
  simp [skipWs, h]

/-! ### String-scan lemmas -/

theorem toNat_not_surrogate (c : Char) : c.toNat < 55296 ∨ 57344 ≤ c.toNat := by
  have h : c.val.isValidChar := c.valid
  rcases h with h | ⟨h1, _⟩
  · exact Or.inl h
  · exact Or.inr h1

theorem combineSurrogates_id : ∀ l : List Nat,
    (∀ u ∈ l, ¬ (55296 ≤ u ∧ u ≤ 56319)) → combineSurrogates l = l
  | [], _ => rfl
  | [u], _ => rfl
  | u :: u2 :: rest, h => by
    have hu := h u (by simp)
    rw [combineSurrogates, if_neg (by tauto)]
    rw [combineSurrogates_id (u2 :: rest) (fun x hx => h x (List.mem_cons_of_mem u hx))]

theorem parseStrAux_quote (rest : List Char) : parseStrAux ('"' :: rest) = some ([], rest) := by
  rw [parseStrAux.eq_def]
  simp

theorem parseStrAux_lit (c : Char) (rest : List Char) (h1 : c ≠ '"') (h2 : c ≠ '\\')
    (h3 : 32 ≤ c.toNat) :
    parseStrAux (c :: rest) = (parseStrAux rest).map (fun p => (c.toNat :: p.1, p.2)) := by
  rw [parseStrAux.eq_def]
  simp [h1, h2, Nat.not_lt.mpr h3]

theorem parseStrAux_clean (f : List Char) (rest : List Char)
    (hf : ∀ c ∈ f, c ≠ '"' ∧ c ≠ '\\' ∧ 32 ≤ c.toNat) :
    parseStrAux (f ++ '"' :: rest) = some (f.map Char.toNat, rest) := by
  induction f with
  | nil => exact parseStrAux_quote rest
  | cons c t ih =>
    obtain ⟨h1, h2, h3⟩ := hf c (by simp)
    rw [List.cons_append, parseStrAux_lit c _ h1 h2 h3,
      ih (fun x hx => hf x (by simp [hx]))]
    rfl

theorem parseJStr_clean (f : List Char) (rest : List Char)
    (hf : ∀ c ∈ f, c ≠ '"' ∧ c ≠ '\\' ∧ 32 ≤ c.toNat) :
    parseJStr (f ++ '"' :: rest) = some (f.map Char.toNat, rest) := by
  rw [parseJStr, parseStrAux_clean f rest hf, Option.map_some']
  rw [combineSurrogates_id]
  intro u hu
  obtain ⟨c, _, hc⟩ := List.mem_map.mp hu
  rcases toNat_not_surrogate c with h | h <;> omega

/-! ### Decimal digit lemmas -/

theorem toNat_digitChar {d : Nat} (h : d < 10) : (digitChar d).toNat = 48 + d := by
  interval_cases d <;> rfl

theorem digitVal_digitChar {d : Nat} (h : d < 10) : digitVal (digitChar d) = d := by
  interval_cases d <;> rfl

theorem isDigitC_digitChar {d : Nat} (h : d < 10) : isDigitC (digitChar d) = true := by
  interval_cases d <;> rfl

theorem isDigitC_toNat {c : Char} (h : isDigitC c = true) :
    48 ≤ c.toNat ∧ c.toNat ≤ 57 := by
  simp [isDigitC, between, Nat.ble_eq] at h
  exact h

theorem digitsToNat_append (a b : List Char) (acc : Nat) :
    digitsToNat acc (a ++ b) = digitsToNat (digitsToNat acc a) b := by
  induction a generalizing acc with
  | nil => rfl
  | cons c t ih =>
    show digitsToNat (acc * 10 + digitVal c) (t ++ b) =
      digitsToNat (digitsToNat (acc * 10 + digitVal c) t) b
    exact ih _

theorem digitsToNat_single (a : Nat) (c : Char) :
    digitsToNat a [c] = a * 10 + digitVal c := rfl

theorem digitsToNat_revmap (L : List Nat) (acc : Nat) (h : ∀ d ∈ L, d < 10) :
    digitsToNat acc (L.reverse.map digitChar) = acc * 10 ^ L.length + Nat.ofDigits 10 L := by
  induction L generalizing acc with
  | nil =>
    rw [List.reverse_nil, List.map_nil, List.length_nil]
    show acc = acc * 10 ^ (0 : Nat) + Nat.ofDigits 10 []
    simp [Nat.ofDigits_nil]
  | cons d t ih =>
    rw [List.reverse_cons, List.map_append, digitsToNat_append]
    rw [ih acc (fun x hx => h x (by simp [hx]))]
    rw [List.map_cons, List.map_nil, digitsToNat_single,
      digitVal_digitChar (h d (by simp))]
    rw [Nat.ofDigits_cons, List.length_cons, pow_succ]
    ring

theorem digitsToNat_natDigits (n : Nat) : digitsToNat 0 (natDigits n) = n := by
  rw [natDigits, digitsToNat_revmap _ 0 (fun d hd => Nat.digits_lt_base (by omega) hd)]
  simp [Nat.ofDigits_digits]

theorem natDigits_all_digits {n : Nat} {c : Char} (h : c ∈ natDigits n) :
    isDigitC c = true := by
  rw [natDigits] at h
  obtain ⟨d, hd, hc⟩ := List.mem_map.mp h
  rw [← hc]
  exact isDigitC_digitChar (Nat.digits_lt_base (by omega) (List.mem_reverse.mp hd))

theorem natRepr_all_digits {n : Nat} {c : Char} (h : c ∈ natRepr n) :
    isDigitC c = true := by
  rw [natRepr] at h
  by_cases h0 : n = 0
  · simp [h0] at h
    simp [h]; rfl
  · rw [if_neg h0] at h
    exact natDigits_all_digits h

theorem digitsToNat_natRepr (n : Nat) : digitsToNat 0 (natRepr n) = n := by
  by_cases h0 : n = 0
  · subst h0; rfl
  · rw [natRepr, if_neg h0]
    exact digitsToNat_natDigits n

theorem natRepr_shape (n : Nat) :
    ∃ d ds, natRepr n = d :: ds ∧ isDigitC d = true ∧ (n ≠ 0 → d ≠ '0') := by
  by_cases h0 : n = 0
  · subst h0
    exact ⟨'0', [], rfl, rfl, fun h => absurd rfl h⟩
  · rw [natRepr, if_neg h0, natDigits]
    have hne : Nat.digits 10 n ≠ [] := Nat.digits_ne_nil_iff_ne_zero.mpr h0
    rcases he : (Nat.digits 10 n).reverse with _ | ⟨d, ds⟩
    · exact absurd (by simpa using congrArg List.reverse he) hne
    · have hd : d ∈ Nat.digits 10 n := by
        have : d ∈ (Nat.digits 10 n).reverse := by rw [he]; simp
        exact List.mem_reverse.mp this
      have hdlt : d < 10 := Nat.digits_lt_base (by omega) hd
      refine ⟨digitChar d, ds.map digitChar, rfl,
        isDigitC_digitChar hdlt, fun _ => ?_⟩
      have hlast : (Nat.digits 10 n).getLast? = some d := by
        rw [← List.head?_reverse, he]; rfl
      have hgl : (Nat.digits 10 n).getLast hne = d := by
        rw [List.getLast?_eq_getLast _ hne] at hlast
        exact Option.some.inj hlast
      have hd0 : d ≠ 0 := fun e => Nat.getLast_digit_ne_zero 10 h0 (hgl.trans e)
      refine ne_of_toNat_ne ?_
      rw [toNat_digitChar hdlt]
      have : ('0' : Char).toNat = 48 := rfl
      omega

theorem takeWhile_all_append {p : Char → Bool} : ∀ (a : List Char) (c : Char) (r : List Char),
    (∀ x ∈ a, p x = true) → p c = false →
    (a ++ c :: r).takeWhile p = a ∧ (a ++ c :: r).dropWhile p = c :: r
  | [], c, r, _, hc => by simp [List.takeWhile_cons, List.dropWhile_cons, hc]
  | x :: t, c, r, ha, hc => by
    have hx := ha x (by simp)
    have ih := takeWhile_all_append t c r (fun y hy => ha y (by simp [hy])) hc
    simp [List.takeWhile_cons, List.dropWhile_cons, hx, ih.1, ih.2]

theorem parseFrac_stop {c : Char} (r : List Char) (hc : c ≠ '.') :
    parseFrac (c :: r) = none := by
  simp only [parseFrac]
  rw [if_neg hc]

theorem parseExp_stop {c : Char} (r : List Char) (hc : ¬ (c = 'e' ∨ c = 'E')) :
    parseExp (c :: r) = none := by
  simp only [parseExp]
  rw [if_neg hc]

theorem afterInt_stop (neg : Bool) (ds : List Char) (c : Char) (rest : List Char)
    (hc2 : c ≠ '.') (hc34 : ¬ (c = 'e' ∨ c = 'E')) :
    afterInt neg ds (c :: rest) =
      (Json.num (if neg then -(digitsToNat 0 ds : Int) else (digitsToNat 0 ds : Int)),
        c :: rest) := by
  simp only [afterInt, parseFrac_stop rest hc2, parseExp_stop rest hc34]

theorem parseNumber_natRepr (n : Nat) (c : Char) (rest : List Char)
    (hc1 : isDigitC c = false) (hc2 : c ≠ '.') (hc3 : ¬ (c = 'e' ∨ c = 'E')) :
    parseNumber (natRepr n ++ c :: rest) = some (Json.num (n : Int), c :: rest) := by
  obtain ⟨d, ds, hshape, hdig, h0⟩ := natRepr_shape n
  have hd48 := isDigitC_toNat hdig
  have hdm : d ≠ '-' := ne_of_toNat_ne (by
    have : ('-' : Char).toNat = 45 := rfl
    omega)
  rw [hshape, List.cons_append]
  simp only [parseNumber]
  rw [if_neg hdm]
  by_cases hz : n = 0
  · have hds : ds = [] := by
      have := hshape
      rw [natRepr, if_pos hz] at this
      exact (List.cons.injEq .. ▸ this).2.symm ▸ rfl
    have hd0 : d = '0' := by
      have := hshape
      rw [natRepr, if_pos hz] at this
      exact ((List.cons.injEq .. ▸ this).1).symm
    subst hd0; subst hds
    simp only [parseUIntPart, if_pos rfl, List.nil_append]
    rw [afterInt_stop false ['0'] c rest hc2 hc3]
    subst hz
    rfl
  · have hd0 : d ≠ '0' := h0 hz
    have hall : ∀ x ∈ ds, isDigitC x = true := by
      intro x hx
      exact natRepr_all_digits (n := n) (by rw [hshape]; exact List.mem_cons_of_mem d hx)
    obtain ⟨htake, hdrop⟩ := takeWhile_all_append ds c rest hall hc1
    simp only [parseUIntPart]
    rw [if_neg hd0, if_pos hdig, htake, hdrop]
    rw [afterInt_stop false (d :: ds) c rest hc2 hc3]
    rw [← hshape, digitsToNat_natRepr n]
    rfl

/-! ### Scanner step lemmas -/

theorem parseValue_quote (fuel : Nat) (cs : List Char) :
    parseValue (fuel + 1) ('"' :: cs) =
      (parseJStr cs).map (fun p => (Json.str p.1, p.2)) := by
  rw [parseValue.eq_def]
  simp

theorem parseValue_objStart (fuel : Nat) (cs X : List Char) (h : skipWs cs = '"' :: X) :
    parseValue (fuel + 1) ('{' :: cs) = parseMembers fuel ('"' :: X) [] := by
  rw [parseValue.eq_def]
  simp [h]

theorem parseValue_number (fuel : Nat) (c : Char) (cs : List Char) (p : Json × List Char)
    (hdig : isDigitC c = true) (hp : parseNumber (c :: cs) = some p) :
    parseValue (fuel + 1) (c :: cs) = some p := by
  have hb := isDigitC_toNat hdig
  have h1 : c ≠ '"' := ne_of_toNat_ne (by
    have : ('"' : Char).toNat = 34 := rfl
    omega)
  have h2 : c ≠ '{' := ne_of_toNat_ne (by
    have : ('{' : Char).toNat = 123 := rfl
    omega)
  have h3 : c ≠ '[' := ne_of_toNat_ne (by
    have : ('[' : Char).toNat = 91 := rfl
    omega)
  rw [parseValue.eq_def]
  simp [h1, h2, h3, hdig, hp]

theorem parseMembers_step (fuel : Nat) (cs X r2 r3 r4 : List Char) (k : List Nat)
    (v : Json) (acc : List (List Nat × Json))
    (hk : parseJStr cs = some (k, X))
    (hcolon : skipWs X = ':' :: r2)
    (hval : parseValue fuel (skipWs r2) = some (v, r3))
    (hnext : skipWs r3 = ',' :: r4) :
    parseMembers (fuel + 1) ('"' :: cs) acc =
      parseMembers fuel (skipWs r4) (acc ++ [(k, v)]) := by
  rw [parseMembers.eq_def]
  simp [hk, hcolon, hval, hnext]

theorem parseMembers_last (fuel : Nat) (cs X r2 r3 r4 : List Char) (k : List Nat)
    (v : Json) (acc : List (List Nat × Json))
    (hk : parseJStr cs = some (k, X))
    (hcolon : skipWs X = ':' :: r2)
    (hval : parseValue fuel (skipWs r2) = some (v, r3))
    (hnext : skipWs r3 = '}' :: r4) :
    parseMembers (fuel + 1) ('"' :: cs) acc = some (Json.obj (acc ++ [(k, v)]), r4) := by
  rw [parseMembers.eq_def]
  simp [hk, hcolon, hval, hnext]

theorem jWs_false_of_digit {c : Char} (h : isDigitC c = true) : jWs c = false := by
  have hb := isDigitC_toNat h
  simp only [jWs, Bool.or_eq_false_iff, beq_eq_false_iff_ne, ne_eq]
  omega

theorem jsonPrefixOf_parts (sc : Nat) (f : List Char) :
    jsonPrefixOf sc f = '{' :: '"' :: scorePart sc f := by
  simp [jsonPrefixOf, jpBody, scorePart, numPart, fbPart, feedTail]

theorem jsonLoads_jsonPrefixOf (sc : Nat) (f : List Char)
    (hf : ∀ c ∈ f, cleanFeedbackChar c) :
    jsonLoads (jsonPrefixOf sc f) =
      some (Json.obj [(kScore, Json.num (sc : Int)),
        (kFeedback, Json.str (f.map Char.toNat))]) := by
  obtain ⟨d, ds, hrep, hdig, _⟩ := natRepr_shape sc
  have hfc : ∀ c ∈ f, c ≠ '"' ∧ c ≠ '\\' ∧ 32 ≤ c.toNat := fun c hc =>
    ⟨(hf c hc).2.2.1, (hf c hc).2.2.2.1, (hf c hc).2.2.2.2⟩
  obtain ⟨m, hm⟩ : ∃ m, ('{' :: '"' :: scorePart sc f).length = m + 3 :=
    ⟨('{' :: '"' :: scorePart sc f).length - 3, by
      simp [scorePart, numPart, fbPart, feedTail, List.length_cons, List.length_append]⟩
  have hk1 : parseJStr (scorePart sc f) =
      some (kScore, ':' :: ' ' :: numPart sc f) :=
    parseJStr_clean ['s', 'c', 'o', 'r', 'e'] (':' :: ' ' :: numPart sc f) (by decide)
  have hcolon1 : skipWs (':' :: ' ' :: numPart sc f) = ':' :: (' ' :: numPart sc f) := rfl
  have hswN : skipWs (' ' :: numPart sc f) = d :: (ds ++ ',' :: ' ' :: '"' :: fbPart f) := by
    show skipWs (numPart sc f) = _
    rw [numPart, hrep, List.cons_append]
    all_goals exact skipWs_cons_of_not_ws _ (jWs_false_of_digit hdig)
  have hnum1 : parseNumber (d :: (ds ++ ',' :: ' ' :: '"' :: fbPart f)) =
      some (Json.num (sc : Int), ',' :: ' ' :: '"' :: fbPart f) := by
    rw [← List.cons_append, ← hrep]
    exact parseNumber_natRepr sc ',' _ (by decide) (by decide) (by decide)
  have hval1 : parseValue (m + 2) (skipWs (' ' :: numPart sc f)) =
      some (Json.num (sc : Int), ',' :: ' ' :: '"' :: fbPart f) := by
    rw [hswN]
    exact parseValue_number (m + 1) d _ _ hdig hnum1
  have hnext1 : skipWs (',' :: ' ' :: '"' :: fbPart f) = ',' :: (' ' :: '"' :: fbPart f) := rfl
  have hk2 : parseJStr (fbPart f) = some (kFeedback, ':' :: ' ' :: '"' :: feedTail f) :=
    parseJStr_clean
      ['p', 'r', 'e', 'c', 'i', 's', 'i', 'o', 'n', '_', 'f', 'e', 'e', 'd', 'b', 'a', 'c', 'k']
      (':' :: ' ' :: '"' :: feedTail f) (by decide)
  have hcolon2 : skipWs (':' :: ' ' :: '"' :: feedTail f) = ':' :: (' ' :: '"' :: feedTail f) := rfl
  have hstr : parseJStr (feedTail f) = some (f.map Char.toNat, '}' :: []) :=
    parseJStr_clean f ('}' :: []) hfc
  have hval2 : parseValue (m + 1) (skipWs (' ' :: '"' :: feedTail f)) =
      some (Json.str (f.map Char.toNat), '}' :: []) := by
    have hsw2 : skipWs (' ' :: '"' :: feedTail f) = '"' :: feedTail f := rfl
    rw [hsw2, parseValue_quote m (feedTail f), hstr]
    rfl
  have hnext2 : skipWs ('}' :: []) = '}' :: ([] : List Char) := rfl
  have hpv : parseValue (m + 3 + 1) ('{' :: '"' :: scorePart sc f) =
      some (Json.obj [(kScore, Json.num (sc : Int)),
        (kFeedback, Json.str (f.map Char.toNat))], []) := by
    calc parseValue (m + 3 + 1) ('{' :: '"' :: scorePart sc f)
        = parseMembers (m + 3) ('"' :: scorePart sc f) [] :=
          parseValue_objStart (m + 3) _ _ rfl
      _ = parseMembers (m + 2) (skipWs (' ' :: '"' :: fbPart f))
            ([] ++ [(kScore, Json.num (sc : Int))]) := by
          exact parseMembers_step (m + 2) _ _ _ _ _ _ _ _ hk1 hcolon1 hval1 hnext1
      _ = parseMembers (m + 1 + 1) ('"' :: fbPart f) [(kScore, Json.num (sc : Int))] := by rfl
      _ = some (Json.obj ([(kScore, Json.num (sc : Int))] ++
            [(kFeedback, Json.str (f.map Char.toNat))]), []) := by
          exact parseMembers_last (m + 1) _ _ _ _ _ _ _ _ hk2 hcolon2 hval2 hnext2
      _ = some (Json.obj [(kScore, Json.num (sc : Int)),
            (kFeedback, Json.str (f.map Char.toNat))], []) := rfl
  rw [jsonPrefixOf_parts]
  unfold jsonLoads
  rw [hm]
  have hskip : skipWs ('{' :: '"' :: scorePart sc f) = '{' :: '"' :: scorePart sc f :=
    skipWs_cons_of_not_ws _ (by rfl)
  rw [hskip, hpv]
  rfl

theorem sanitizeTurn_eq (t : Turn) :
    sanitizeTurn t =
      if t.role = Role.assistant ∧ '{' ∈ t.content ∧ '}' ∈ t.content
      then { role := Role.assistant, content := pyStrip (tailAfterBrace t.content) }
      else t := by
  cases t with
  | mk r c =>
    cases r with
    | user => simp [sanitizeTurn]
    | assistant =>
      by_cases hc : '{' ∈ c ∧ '}' ∈ c
      · obtain ⟨⟨a, b⟩, hp⟩ := splitBrace_isSome_of_mem hc.2
        simp [sanitizeTurn, hc, tailAfterBrace, hp]
      · simp [sanitizeTurn, hc]

theorem count_brace_tail {c a b : List Char} (hp : splitBrace c = some (a, b))
    (hcount : c.count '}' ≤ 1) : '}' ∉ b := by
  obtain ⟨hdecomp, _⟩ := splitBrace_eq_some hp
  intro hb
  have h1 : 1 ≤ b.count '}' := List.one_le_count_iff.mpr hb
  have h2 : c.count '}' = a.count '}' + (1 + b.count '}') := by
    rw [hdecomp, List.count_append, List.count_cons]
    simp [Nat.add_comm]
  omega

/-- Claim C2 counterexample: the sanitizer is not idempotent.  On the
single assistant turn `a\x7db\x7bc\x7dd` one pass yields `b\x7bc\x7dd`,
which still contains both braces, so a second pass yields `d`. -/
theorem c2_counterexample :
    sanitize (sanitize [Turn.mk Role.assistant
        ('a' :: '}' :: 'b' :: '{' :: 'c' :: '}' :: 'd' :: [])]) ≠
      sanitize [Turn.mk Role.assistant
        ('a' :: '}' :: 'b' :: '{' :: 'c' :: '}' :: 'd' :: [])] := by
  decide

/-- Claim C2 (corrected): sanitization is idempotent on every turn
sequence whose assistant turns each contain at most one brace-close
character; the unrestricted claim fails (see the counterexample). -/
theorem c2_idempotent_amended (ts : List Turn)
    (h : ∀ t ∈ ts, t.role = Role.assistant → t.content.count '}' ≤ 1) :
    sanitize (sanitize ts) = sanitize ts := by
  simp only [sanitize, List.map_map]
  apply List.map_congr_left
  intro t ht
  show sanitizeTurn (sanitizeTurn t) = sanitizeTurn t
  cases t with
  | mk r c =>
    cases r with
    | user => rfl
    | assistant =>
      by_cases hc : '{' ∈ c ∧ '}' ∈ c
      · obtain ⟨⟨a, b⟩, hp⟩ := splitBrace_isSome_of_mem hc.2
        have h1 : sanitizeTurn (Turn.mk Role.assistant c) =
            Turn.mk Role.assistant (pyStrip b) := by
          simp [sanitizeTurn, hc, hp]
        rw [h1]
        have hb : '}' ∉ b := count_brace_tail hp (h _ ht rfl)
        have hbs : '}' ∉ pyStrip b := fun hm => hb (mem_of_mem_pyStrip hm)
        rw [sanitizeTurn_eq]
        rw [if_neg (fun hh => hbs hh.2.2)]
      · have h1 : sanitizeTurn (Turn.mk Role.assistant c) = Turn.mk Role.assistant c := by
          simp [sanitizeTurn, hc]
        rw [h1, h1]

/-- Witness for C2: a sanitized-protocol-shaped transcript satisfies the
hypothesis and the amended idempotence theorem applies to it. -/
theorem c2_idempotent_amended_witness :
    (∀ t ∈ [Turn.mk Role.assistant ('a' :: '}' :: 'b' :: [])],
      t.role = Role.assistant → t.content.count '}' ≤ 1) ∧
    sanitize (sanitize [Turn.mk Role.assistant ('a' :: '}' :: 'b' :: [])]) =
      sanitize [Turn.mk Role.assistant ('a' :: '}' :: 'b' :: [])] :=
  ⟨by decide, c2_idempotent_amended _ (by decide)⟩

/-- Claim C3 counterexample: the assistant text `x\x7by\x7dz` does not
begin with a structured prefix, yet the sanitizer rewrites it to `z`. -/
theorem c3_counterexample :
    structuredStart ('x' :: '{' :: 'y' :: '}' :: 'z' :: []) = false ∧
    sanitize [Turn.mk Role.assistant ('x' :: '{' :: 'y' :: '}' :: 'z' :: [])] =
      [Turn.mk Role.assistant ('z' :: [])] := by
  constructor
  · rfl
  · decide

/-- Claim C3 (corrected): the sanitizer rewrites exactly the assistant
turns whose text contains both a brace-open and a brace-close anywhere —
not only those beginning with a structured prefix — replacing the text
with the portion after the first brace-close, trimmed; every other turn
passes through unchanged at the same position. -/
theorem c3_sanitize_amended (ts : List Turn) (i : Nat) :
    (sanitize ts).length = ts.length ∧
    (sanitize ts).get? i = (ts.get? i).map (fun t =>
      if t.role = Role.assistant ∧ '{' ∈ t.content ∧ '}' ∈ t.content
      then { role := Role.assistant, content := pyStrip (tailAfterBrace t.content) }
      else t) := by
  constructor
  · simp [sanitize]
  · simp only [sanitize, List.get?_map]
    cases hv : ts.get? i with
    | none => rfl
    | some t => simp [sanitizeTurn_eq]

theorem natRepr_seven : natRepr 7 = ['7'] := by
  have h7 : Nat.digits 10 7 = [7] := by
    rw [Nat.digits_def' (by norm_num : (1 : Nat) < 10) (by norm_num : 0 < 7)]
    norm_num
  rw [natRepr, if_neg (by omega), natDigits, h7]
  rfl

theorem brace_not_mem_jpBody (sc : Nat) (f : List Char)
    (hf : ∀ c ∈ f, c ≠ '}') : '}' ∉ jpBody sc f := by
  intro hm
  rw [jpBody] at hm
  rcases List.mem_append.mp hm with h1 | h2
  · rcases List.mem_append.mp h1 with h3 | h4
    · rcases List.mem_append.mp h3 with h5 | h6
      · rcases List.mem_append.mp h5 with h7 | h8
        · exact absurd h7 (by decide)
        · exact absurd (natRepr_all_digits h8) (by decide)
      · exact absurd h6 (by decide)
    · exact hf _ h4 rfl
  · exact absurd h2 (by decide)

theorem jget_pair_first (v1 v2 : Json) :
    jget [(kScore, v1), (kFeedback, v2)] kScore = some v1 := by rfl

theorem jget_pair_second (v1 v2 : Json) :
    jget [(kScore, v1), (kFeedback, v2)] kFeedback = some v2 := by rfl

/-- Claim C1 counterexample: with the feedback string consisting of a
single double-quote character (which contains no brace), the head is not
valid JSON, so the decode fails and score and feedback keep their prior
values instead of becoming 7 and the feedback string. -/
theorem c1_counterexample :
    jsonPrefixOf 7 ('"' :: []) ++ ('h' :: 'i' :: []) =
      ("\x7b\"score\": 7, \"precision_feedback\": \"\"\"\x7dhi").toList ∧
    (replyUpdate emptySession
        (("\x7b\"score\": 7, \"precision_feedback\": \"\"\"\x7dhi").toList)).score =
      Json.num 0 ∧
    (replyUpdate emptySession
        (("\x7b\"score\": 7, \"precision_feedback\": \"\"\"\x7dhi").toList)).feedback =
      none ∧
    Json.num 0 ≠ Json.num 7 := by
  refine ⟨?_, rfl, rfl, ?_⟩
  · simp only [jsonPrefixOf, jpBody, natRepr_seven]
    rfl
  · intro h
    simp at h

/-- Claim C1 (corrected): the parser round-trip holds for scores in
[0,100] and feedback strings that additionally contain no double quote,
no backslash, and no control character; the original claim fails when the
feedback contains a quote (see the counterexample).  The stored score is
the integer, the stored feedback is the code points of `f`, the raw reply
is appended, and the displayed text is `d` trimmed. -/
theorem c1_roundtrip_amended (s : Session) (sc : Nat) (f d : List Char)
    (hsc : sc ≤ 100)
    (hf : ∀ c ∈ f, cleanFeedbackChar c)
    (hd : startsBrace d = false) :
    replyUpdate s (jsonPrefixOf sc f ++ d) =
      { s with score := Json.num (sc : Int)
             , feedback := some (Json.str (f.map Char.toNat))
             , chat_history := s.chat_history ++
                 [{ role := Role.assistant, content := jsonPrefixOf sc f ++ d }] } ∧
    displayText (jsonPrefixOf sc f ++ d) = pyStrip d := by
  have hcons : jsonPrefixOf sc f ++ d = '{' :: ('"' :: (scorePart sc f ++ d)) := by
    rw [jsonPrefixOf_parts]
    simp only [List.cons_append]
  have hstart : startsBrace (pyStrip (jsonPrefixOf sc f ++ d)) = true := by
    rw [hcons]
    exact startsBrace_pyStrip_cons _
  have hnm : '}' ∉ jpBody sc f := brace_not_mem_jpBody sc f (fun c hc => (hf c hc).2.1)
  have hsplit : splitBrace (jsonPrefixOf sc f ++ d) = some (jpBody sc f, d) := by
    have h0 : jsonPrefixOf sc f ++ d = jpBody sc f ++ '}' :: d := by
      simp only [jsonPrefixOf, List.append_assoc, List.singleton_append]
    rw [h0]
    exact splitBrace_append d hnm
  have hloads : jsonLoads (jpBody sc f ++ ['}']) =
      some (Json.obj [(kScore, Json.num (sc : Int)),
        (kFeedback, Json.str (f.map Char.toNat))]) := by
    have h0 : jpBody sc f ++ ['}'] = jsonPrefixOf sc f := rfl
    rw [h0]
    exact jsonLoads_jsonPrefixOf sc f hf
  constructor
  · simp only [replyUpdate, hstart, if_true, hsplit, hloads]
    rw [jget_pair_first, jget_pair_second]
    rfl
  · simp only [displayText, hstart, if_true, hsplit]

/-- Witness for C1: a concrete well-formed reply for score 85 and
feedback `Good`, followed by display text ` OK`, round-trips. -/
theorem c1_roundtrip_amended_witness :
    (∀ c ∈ ('G' :: 'o' :: 'o' :: 'd' :: []), cleanFeedbackChar c) ∧
    (replyUpdate emptySession
        (jsonPrefixOf 85 ('G' :: 'o' :: 'o' :: 'd' :: []) ++ (' ' :: 'O' :: 'K' :: [])) =
      { emptySession with
          score := Json.num (85 : Int)
          feedback := some (Json.str (('G' :: 'o' :: 'o' :: 'd' :: []).map Char.toNat))
          chat_history := emptySession.chat_history ++
            [{ role := Role.assistant,
               content := jsonPrefixOf 85 ('G' :: 'o' :: 'o' :: 'd' :: []) ++
                 (' ' :: 'O' :: 'K' :: []) }] } ∧
     displayText (jsonPrefixOf 85 ('G' :: 'o' :: 'o' :: 'd' :: []) ++
       (' ' :: 'O' :: 'K' :: [])) = pyStrip (' ' :: 'O' :: 'K' :: [])) :=
  ⟨by decide,
    c1_roundtrip_amended emptySession 85 _ _ (by omega) (by decide) (by decide)⟩

/-- Claim C4 (code bug): on the first-prompt path a reply with no leading
brace-open is dropped entirely — no assistant turn is appended and the
session is left exactly as it was — instead of being passed through as
display text.  This theorem evaluates the code at the failing input. -/
theorem c4_first_prompt_drops_reply :
    firstPromptStep
      { pdf_text := some ('n' :: 'o' :: 't' :: 'e' :: 's' :: []), score := Json.num 0,
        feedback := none, chat_history := [] }
      (some (("Hello! Ready to begin?").toList)) =
    { pdf_text := some ('n' :: 'o' :: 't' :: 'e' :: 's' :: []), score := Json.num 0,
      feedback := none, chat_history := [] } := by
  rfl

/-- Claim C6 (code bug): a successful first-prompt model reply without a
structured prefix results in zero assistant turns appended, not exactly
one.  This theorem evaluates the code at the failing input. -/
theorem c6_first_prompt_no_append :
    (firstPromptStep
      { pdf_text := some ('n' :: []), score := Json.num 0,
        feedback := none, chat_history := [] }
      (some (("Define a linked list.").toList))).chat_history = [] := by
  rfl

/-- Claim C5 counterexample: on the malformed reply `\x7bnot json\x7drest`
the text shown for the turn is `rest`, not the entire raw reply. -/
theorem c5_counterexample :
    displayText (("\x7bnot json\x7drest").toList) = ("rest").toList ∧
    ("rest").toList ≠ ("\x7bnot json\x7drest").toList := by
  exact ⟨rfl, by decide⟩

/-- Claim C5 (corrected): when the stripped reply starts with a
brace-open and the head decode fails, the entire raw reply is stored in
the transcript and score/feedback stay unchanged; but the text shown for
the turn is the portion after the first brace-close, trimmed — the full
raw reply is shown only when no brace-close exists at all. -/
theorem c5_failopen_amended (s : Session) (raw : List Char)
    (h1 : startsBrace (pyStrip raw) = true)
    (h2 : headLoadFails raw = true) :
    replyUpdate s raw =
      { s with chat_history := s.chat_history ++
          [{ role := Role.assistant, content := raw }] } ∧
    displayText raw = (match splitBrace raw with
      | some p => pyStrip p.2
      | none => raw) := by
  cases hsp : splitBrace raw with
  | none =>
    constructor
    · simp only [replyUpdate, h1, if_true, hsp]
    · simp only [displayText, h1, if_true, hsp]
  | some p =>
    have hl : jsonLoads (p.1 ++ ['}']) = none := by
      rw [headLoadFails, hsp] at h2
      exact Option.isNone_iff_eq_none.mp h2
    constructor
    · simp only [replyUpdate, h1, if_true, hsp, hl]
    · simp only [displayText, h1, if_true, hsp]

/-- Witness for C5: the malformed reply `\x7bnot json\x7drest` satisfies
both hypotheses and the amended fail-open behaviour follows. -/
theorem c5_failopen_amended_witness :
    startsBrace (pyStrip (("\x7bnot json\x7drest").toList)) = true ∧
    headLoadFails (("\x7bnot json\x7drest").toList) = true ∧
    (replyUpdate emptySession (("\x7bnot json\x7drest").toList) =
      { emptySession with chat_history := emptySession.chat_history ++
          [{ role := Role.assistant, content := ("\x7bnot json\x7drest").toList }] } ∧
     displayText (("\x7bnot json\x7drest").toList) =
       (match splitBrace (("\x7bnot json\x7drest").toList) with
        | some p => pyStrip p.2
        | none => ("\x7bnot json\x7drest").toList)) :=
  ⟨rfl, rfl, c5_failopen_amended emptySession _ rfl rfl⟩

/-- Claim C7 (confirmed): when the model invocation during submit fails,
the controller appends no assistant turn and leaves score and feedback at
their pre-call values, while the user turn appended before the call
remains in the transcript. -/
theorem c7_model_failure_atomic (s : Session) (u : List Char) (hu : u ≠ []) :
    submitStep s (some u) none =
      { s with chat_history := s.chat_history ++
          [{ role := Role.user, content := u }] } := by
  simp [submitStep, hu]

/-- Witness for C7: a concrete non-empty transcription with a failed
model call. -/
theorem c7_model_failure_atomic_witness :
    ('i' :: 't' :: []) ≠ ([] : List Char) ∧
    submitStep emptySession (some ('i' :: 't' :: [])) none =
      { emptySession with chat_history := emptySession.chat_history ++
          [{ role := Role.user, content := 'i' :: 't' :: [] }] } :=
  ⟨by decide, c7_model_failure_atomic emptySession _ (by decide)⟩

/-- Claim C8 counterexample: after ingesting an empty extracted text the
reference text is set (the session is no longer EMPTY), yet a second
ingest overwrites it: the code treats the empty string as absent. -/
theorem c8_counterexample :
    (ingestStep emptySession (some [])).pdf_text = some [] ∧
    (ingestStep (ingestStep emptySession (some []))
        (some ('a' :: 'b' :: 'c' :: []))).pdf_text = some ('a' :: 'b' :: 'c' :: []) := by
  exact ⟨rfl, rfl⟩

/-- Claim C8 (corrected): ingestion is first-write-wins provided the
first extracted text is non-empty; an empty text does not latch. -/
theorem c8_first_write_wins_amended (s : Session) (t1 t2 : List Char)
    (h0 : s.pdf_text = none) (h1 : t1 ≠ []) :
    (ingestStep s (some t1)).pdf_text = some t1 ∧
    ingestStep (ingestStep s (some t1)) (some t2) = ingestStep s (some t1) := by
  have hstep : ingestStep s (some t1) = { s with pdf_text := some t1 } := by
    simp [ingestStep, h0]
  constructor
  · rw [hstep]
  · rw [hstep]
    simp [ingestStep, h1]

/-- Witness for C8: ingesting `n` then `x` keeps `n`. -/
theorem c8_first_write_wins_amended_witness :
    emptySession.pdf_text = none ∧ ('n' :: []) ≠ ([] : List Char) ∧
    ((ingestStep emptySession (some ('n' :: []))).pdf_text = some ('n' :: []) ∧
     ingestStep (ingestStep emptySession (some ('n' :: []))) (some ('x' :: [])) =
       ingestStep emptySession (some ('n' :: []))) :=
  ⟨rfl, by decide, c8_first_write_wins_amended emptySession _ _ rfl (by decide)⟩

/-- Claim C9 (confirmed): whenever the head decodes as a JSON object, the
controller stores the `score` value (defaulting to the integer 0 when the
field is absent) and the `precision_feedback` value (defaulting to the
empty string), with no clamping of any kind: the stored score is exactly
the looked-up JSON value. -/
theorem c9_parser_extraction (s : Session) (raw hd tl : List Char)
    (fields : List (List Nat × Json))
    (h1 : startsBrace (pyStrip raw) = true)
    (h2 : splitBrace raw = some (hd, tl))
    (h3 : jsonLoads (hd ++ ['}']) = some (Json.obj fields)) :
    replyUpdate s raw =
      { s with score := (jget fields kScore).getD (Json.num 0)
             , feedback := some ((jget fields kFeedback).getD (Json.str []))
             , chat_history := s.chat_history ++
                 [{ role := Role.assistant, content := raw }] } := by
  simp only [replyUpdate, h1, if_true, h2, h3]

/-- Witness for C9: a reply carrying the out-of-range score 777 and no
feedback field; the stored score is 777 (no clamping) and the feedback
defaults to the empty string. -/
theorem c9_parser_extraction_witness :
    startsBrace (pyStrip (("\x7b\"score\": 777\x7dok").toList)) = true ∧
    splitBrace (("\x7b\"score\": 777\x7dok").toList) =
      some (("\x7b\"score\": 777").toList, 'o' :: 'k' :: []) ∧
    jsonLoads (("\x7b\"score\": 777").toList ++ ['}']) =
      some (Json.obj [(kScore, Json.num 777)]) ∧
    replyUpdate emptySession (("\x7b\"score\": 777\x7dok").toList) =
      { emptySession with
          score := (jget [(kScore, Json.num 777)] kScore).getD (Json.num 0)
          feedback := some ((jget [(kScore, Json.num 777)] kFeedback).getD (Json.str []))
          chat_history := emptySession.chat_history ++
            [{ role := Role.assistant, content := ("\x7b\"score\": 777\x7dok").toList }] } ∧
    (jget [(kScore, Json.num 777)] kScore).getD (Json.num 0) = Json.num 777 :=
  ⟨rfl, rfl, rfl, c9_parser_extraction emptySession _ _ _ _ rfl rfl rfl, rfl⟩

/-- Claim C10 (confirmed): a transcription that succeeds with the empty
string is treated exactly like a transcription failure: the session is
unchanged, regardless of what the model oracle would have answered. -/
theorem c10_empty_transcription_noop (s : Session) (m : Option (List Char)) :
    submitStep s (some []) m = s ∧ submitStep s none m = s ∧
    submitStep s (some []) m = submitStep s none m := by
  exact ⟨rfl, rfl, rfl⟩
